import Mathlib

/-!
Verification of the Greeks-preprocessing pipeline (`preprocess_greeks` in
`options.py`) against its design specification.

The pipeline is a column-wise pandas program; semantically it processes each
raw record independently except for whole-batch failure points, which we model
with an `Except` result over the list of records:

* `pd.merge(..., how="left", validate="many_to_one")` raises `MergeError`
  when the right-hand (reference-table) keys are not unique — a whole-run
  abort before any per-record work.
* `master.year_strike.str[0].astype(int)` raises when any record's numeric
  suffix is empty or starts with a non-digit — a whole-batch abort.
* `pd.to_datetime(master.maturity, yearfirst=True)` raises when any
  non-null maturity string fails to parse — a whole-batch abort.  Null
  maturity strings (built from a NaN component) become NaT instead.
* `master.astype({"strike": int})` raises when any record's strike is NaN
  (suffix length neither 4 nor 6) or non-numeric — a whole-batch abort.

Numeric Greeks fields undergo no arithmetic; they are modelled by opaque
integer stand-ins.  The raw `date` column is modelled as already parsed
(`pd.to_datetime(master.date)` is the identity on parsed dates).
Two-digit maturity years are resolved the way `pd.to_datetime` (via
dateutil) resolves them: relative to the year the program runs in, which we
pass around explicitly as `currentYear`.
-/

/-- Value of an ASCII digit character (python `int(c)` for a digit). -/
def digitVal (c : Char) : Nat := c.toNat - 48

/-- Python string slice `s[a:b]` (as used by the pandas `.str` accessor). -/
def pySlice (s : String) (a b : Nat) : String := String.mk ((s.toList.drop a).take (b - a))

/-- Python string slice `s[a:]`. -/
def pySliceFrom (s : String) (a : Nat) : String := String.mk (s.toList.drop a)

/-- `master["underlying"] = master.ticker.str[1:4]` -/
def underlyingOf (t : String) : String := pySlice t 1 4

/-- `master["code"] = master.ticker.str[4]` (`none` models pandas NaN for a
short ticker). -/
def seriesCodeOf (t : String) : Option Char := t.toList[4]?

/-- `master["year_strike"] = master["ticker"].str[5:]` -/
def yearStrikeOf (t : String) : String := pySliceFrom t 5

/-- `master["y"] = master.year_strike.str[0].astype(int)`: the int value of the
first suffix character; `none` models the `astype` raising (NaN from an empty
suffix, or `ValueError` from a non-digit). -/
def firstDigit (ys : String) : Option Nat :=
  match ys.toList[0]? with
  | none => none
  | some c => if c.isDigit then some (digitVal c) else none

/-- The three mask assignments to `maturity_year` (options.py lines 137-149):
length-4 suffix with first digit `< 6` gets `"1" + first char`, length-4 with
first digit `>= 6` keeps the first char, length-6 keeps the first two chars;
any other length leaves the column NaN (`none`). -/
def maturityYearSuffix (ys : String) (y : Nat) : Option String :=
  if ys.length = 4 ∧ y < 6 then some ("1" ++ pySlice ys 0 1)
  else if ys.length = 4 ∧ 6 ≤ y then some (pySlice ys 0 1)
  else if ys.length = 6 then some (pySlice ys 0 2)
  else none

/-- The three mask assignments to `strike` (still a string at this point):
`year_strike.str[1:]` for length-4 suffixes, `year_strike.str[2:]` for
length-6 suffixes, NaN (`none`) otherwise. -/
def strikeStrOf (ys : String) (y : Nat) : Option String :=
  if ys.length = 4 ∧ y < 6 then some (pySliceFrom ys 1)
  else if ys.length = 4 ∧ 6 ≤ y then some (pySliceFrom ys 1)
  else if ys.length = 6 then some (pySliceFrom ys 2)
  else none

/-- Big-endian digit-list value. -/
def digitsVal (l : List Nat) : Nat := l.foldl (fun a d => 10 * a + d) 0

/-- `astype(int)` on a string column entry: succeeds exactly on non-empty
all-digit strings (the only shapes the pipeline produces for parseable data). -/
def parseIntDigits (s : String) : Option Nat :=
  if s.toList.isEmpty then none
  else if s.toList.all Char.isDigit then some (digitsVal (s.toList.map digitVal))
  else none

/-- A calendar date. -/
structure Date where
  year : Nat
  month : Nat
  day : Nat
deriving DecidableEq

/-- Day of week in python's convention (Monday = 0, ..., Friday = 4,
Sunday = 6), by Zeller's congruence. -/
def weekday (y m d : Nat) : Nat :=
  if m ≤ 2 then
    (d + 13 * (m + 13) / 5 + (y - 1) % 100 + (y - 1) % 100 / 4
      + (y - 1) / 100 / 4 + 5 * ((y - 1) / 100) + 5) % 7
  else
    (d + 13 * (m + 1) / 5 + y % 100 + y % 100 / 4 + y / 100 / 4 + 5 * (y / 100) + 5) % 7

/-- dateutil's two-digit-year resolution (used by `pd.to_datetime` when it
falls back to dateutil): complete the digits with the current century, then
shift by a century if the result is 50 or more years away from the year the
program is running in. -/
def convertyear (currentYear s : Nat) : Nat :=
  if s < 100 then
    if 50 ≤ (if currentYear / 100 * 100 + s < currentYear
        then currentYear - (currentYear / 100 * 100 + s)
        else currentYear / 100 * 100 + s - currentYear) then
      (if currentYear / 100 * 100 + s < currentYear
        then currentYear / 100 * 100 + s + 100
        else currentYear / 100 * 100 + s - 100)
    else currentYear / 100 * 100 + s
  else s

/-- `pd.to_datetime(ys ++ "-" ++ mm ++ "-01", yearfirst=True)`: parse the
maturity string built on line 153; `none` models the parse raising. -/
def parseMaturityStr (currentYear : Nat) (ys mm : String) : Option Date :=
  match parseIntDigits ys, parseIntDigits mm with
  | some s, some m =>
      if 1 ≤ m ∧ m ≤ 12 then some ⟨convertyear currentYear s, m, 1⟩ else none
  | _, _ => none

/-- The day-of-month anchor of `pd.offsets.WeekOfMonth(week, weekday)` for a
given month: the `week+1`-th occurrence of the target weekday. -/
def weekOfMonthAnchor (week wd : Nat) (y m : Nat) : Nat :=
  1 + (wd + 7 - weekday y m 1) % 7 + 7 * week

/-- Adding one `pd.offsets.WeekOfMonth(week, weekday)` offset to a date: roll
forward to this month's anchor if strictly before it, else to next month's. -/
def addWeekOfMonth (week wd : Nat) (dt : Date) : Date :=
  let a := weekOfMonthAnchor week wd dt.year dt.month
  if dt.day < a then ⟨dt.year, dt.month, a⟩
  else if dt.month = 12 then ⟨dt.year + 1, 1, weekOfMonthAnchor week wd (dt.year + 1) 1⟩
  else ⟨dt.year, dt.month + 1, weekOfMonthAnchor week wd dt.year (dt.month + 1)⟩

/-- One entry of the `option_codes.json` reference table: a maturity month
(kept as text by `codes.astype({"maturity_month": str})`) and the option
type; the column is literally named `type` in the frame. -/
structure CodeEntry where
  maturity_month : String
  type : String
deriving DecidableEq

/-- One raw Greeks row after the column rename (options.py lines 96-109).
The real-valued fields are opaque stand-ins: the pipeline never computes with
them. -/
structure RawGreeksRecord where
  date : Int
  ticker : String
  implied_volatility : Int
  volatility : Int
  rfr_rate : Int
  div_rate : Int
  delta : Int
  gamma : Int
  theta : Int
  vega : Int
  rho : Int
deriving DecidableEq

/-- One output row: the raw fields plus the derived columns that survive the
final `drop` (note the frame keeps `code`, and the option type column is
named `type`).  `none` in `code`/`type` models NaN from the left join, `none`
in `maturity` models NaT. -/
structure NormalizedGreeksRecord where
  date : Int
  ticker : String
  implied_volatility : Int
  volatility : Int
  rfr_rate : Int
  div_rate : Int
  delta : Int
  gamma : Int
  theta : Int
  vega : Int
  rho : Int
  underlying : String
  code : Option Char
  type : Option String
  strike : Nat
  maturity : Option Date
deriving DecidableEq

/-- Whole-run failure points of `preprocess_greeks`, in pipeline order. -/
inductive PipelineError where
  /-- `pd.merge(..., validate="many_to_one")` raised `MergeError`. -/
  | mergeNotManyToOne
  /-- `master.year_strike.str[0].astype(int)` raised. -/
  | yearDigitCast
  /-- `pd.to_datetime(master.maturity, yearfirst=True)` raised. -/
  | maturityParse
  /-- `master.astype({"strike": int})` raised. -/
  | strikeCast
deriving DecidableEq

/-- Uniqueness of the reference-table keys: what
`pd.merge(..., validate="many_to_one")` checks on the right-hand side. -/
def keysUnique : List (Char × CodeEntry) → Bool
  | [] => true
  | (c, _) :: rest => !(rest.any fun p => p.1 == c) && keysUnique rest

/-- The left join on `code` for one record: NaN code (short ticker) or an
absent key yields NaN reference fields. -/
def lookupEntry (codes : List (Char × CodeEntry)) (t : String) : Option CodeEntry :=
  (seriesCodeOf t).bind fun c => List.lookup c codes

/-- The pair (`maturity_year`, `maturity_month`) for one record, when both are
non-null; `none` models a NaN maturity string (line 153). -/
def maturityStringOf (codes : List (Char × CodeEntry)) (r : RawGreeksRecord) :
    Option (String × String) :=
  match firstDigit (yearStrikeOf r.ticker) with
  | none => none
  | some y =>
    match maturityYearSuffix (yearStrikeOf r.ticker) y,
        (lookupEntry codes r.ticker).map CodeEntry.maturity_month with
    | some ysuf, some mm => some (ysuf, mm)
    | _, _ => none

/-- Does `pd.to_datetime` raise on this record's maturity string?  A null
string becomes NaT without raising. -/
def maturityParseFails (currentYear : Nat) (codes : List (Char × CodeEntry))
    (r : RawGreeksRecord) : Bool :=
  match maturityStringOf codes r with
  | none => false
  | some (ysuf, mm) => (parseMaturityStr currentYear ysuf mm).isNone

/-- The final `maturity` column entry for one record: parse the maturity
string, then add `pd.offsets.WeekOfMonth(week=2, weekday=4)` (line 157);
`none` is NaT. -/
def maturityOf (currentYear : Nat) (codes : List (Char × CodeEntry))
    (r : RawGreeksRecord) : Option Date :=
  (maturityStringOf codes r).bind fun p =>
    (parseMaturityStr currentYear p.1 p.2).map (addWeekOfMonth 2 4)

/-- The `strike` column entry for one record after `astype({"strike": int})`:
`none` models NaN (suffix length neither 4 nor 6) or an unparseable string,
either of which makes the cast raise for the whole batch. -/
def strikeOf (r : RawGreeksRecord) : Option Nat :=
  match firstDigit (yearStrikeOf r.ticker) with
  | none => none
  | some y => (strikeStrOf (yearStrikeOf r.ticker) y).bind parseIntDigits

/-- Assemble one output row (the per-record reading of lines 118-166). -/
def normalizeRecord (currentYear : Nat) (codes : List (Char × CodeEntry))
    (r : RawGreeksRecord) : Option NormalizedGreeksRecord :=
  (strikeOf r).map fun k =>
    { date := r.date, ticker := r.ticker, implied_volatility := r.implied_volatility
      volatility := r.volatility, rfr_rate := r.rfr_rate, div_rate := r.div_rate
      delta := r.delta, gamma := r.gamma, theta := r.theta, vega := r.vega, rho := r.rho
      underlying := underlyingOf r.ticker, code := seriesCodeOf r.ticker
      type := (lookupEntry codes r.ticker).map CodeEntry.type
      strike := k, maturity := maturityOf currentYear codes r }

/-- The whole pipeline on a batch of records, with its whole-run failure
points in program order (merge validation, year-digit cast, maturity parse,
strike cast). -/
def preprocess_greeks (currentYear : Nat) (codes : List (Char × CodeEntry))
    (records : List RawGreeksRecord) :
    Except PipelineError (List NormalizedGreeksRecord) :=
  if keysUnique codes = false then .error .mergeNotManyToOne
  else if records.any (fun r => (firstDigit (yearStrikeOf r.ticker)).isNone) then
    .error .yearDigitCast
  else if records.any (maturityParseFails currentYear codes) then .error .maturityParse
  else if records.any (fun r => (strikeOf r).isNone) then .error .strikeCast
  else .ok (records.filterMap (normalizeRecord currentYear codes))

/-- Column-name bookkeeping: the renamed raw columns (lines 96-109). -/
def renamedColumns : List String :=
  ["date", "ticker", "implied_volatility", "volatility", "rfr_rate", "div_rate",
   "delta", "gamma", "theta", "vega", "rho"]

/-- Columns after adding `underlying`/`code`, the merge (which appends the
reference table's `index`, `maturity_month`, `type`), and dropping `index`. -/
def columnsAfterMerge : List String :=
  ((renamedColumns ++ ["underlying", "code"]) ++ ["index", "maturity_month", "type"]).filter
    fun c => !(c == "index")

/-- Columns after the derived-column assignments, in creation order. -/
def columnsWithDerived : List String :=
  columnsAfterMerge ++ ["year_strike", "t", "y", "maturity_year", "strike", "maturity"]

/-- The output schema: line 159 drops the temporaries. -/
def outputColumns : List String :=
  columnsWithDerived.filter fun c =>
    !(["year_strike", "maturity_month", "maturity_year", "y", "t"].contains c)

/-- A small concrete reference table in the shape of `option_codes.json`. -/
def sampleCodes : List (Char × CodeEntry) :=
  [('C', ⟨"3", "call"⟩), ('F', ⟨"3", "call"⟩), ('R', ⟨"9", "put"⟩)]

/-- A raw record with a given ticker and zeroed numeric stand-ins. -/
def mkRec (t : String) : RawGreeksRecord :=
  ⟨0, t, 0, 0, 0, 0, 0, 0, 0, 0, 0⟩

/-- C1: a legacy (length-4) numeric suffix whose first digit `d` is below 6
decodes to maturity-year suffix `"1"` followed by `d` and to the integer value
of the remaining three digits as strike. -/
theorem c1_legacy_first_digit_lt6 (ys : String) (c0 c1 c2 c3 : Char)
    (hys : ys.toList = [c0, c1, c2, c3])
    (h0 : c0.isDigit = true) (h1 : c1.isDigit = true) (h2 : c2.isDigit = true)
    (h3 : c3.isDigit = true) (hd : digitVal c0 < 6) :
    firstDigit ys = some (digitVal c0) ∧
    maturityYearSuffix ys (digitVal c0) = some (String.mk ['1', c0]) ∧
    (strikeStrOf ys (digitVal c0)).bind parseIntDigits
      = some (100 * digitVal c1 + 10 * digitVal c2 + digitVal c3) := by
  obtain ⟨data⟩ := ys
  simp only [String.toList] at hys
  subst hys
  refine ⟨?_, ?_, ?_⟩
  · simp [firstDigit, h0]
  · rw [maturityYearSuffix, if_pos ⟨rfl, hd⟩]
    rfl
  · rw [strikeStrOf, if_pos ⟨rfl, hd⟩]
    simp only [Option.bind_some, Option.some_bind]
    have : pySliceFrom (String.mk [c0, c1, c2, c3]) 1 = String.mk [c1, c2, c3] := rfl
    rw [this, parseIntDigits]
    simp [h1, h2, h3, digitsVal]
    omega

/-- C1 witness: suffix `"4125"` decodes to year suffix `"14"` and strike 125. -/
theorem c1_witness :
    firstDigit "4125" = some 4 ∧
    maturityYearSuffix "4125" 4 = some "14" ∧
    (strikeStrOf "4125" 4).bind parseIntDigits = some 125 :=
  c1_legacy_first_digit_lt6 "4125" '4' '1' '2' '5' rfl rfl rfl rfl rfl (by decide)

/-- C2: a legacy (length-4) numeric suffix whose first digit `d` is 6 or more
decodes to maturity-year suffix equal to that digit alone, with the remaining
three digits as strike. -/
theorem c2_legacy_first_digit_ge6 (ys : String) (c0 c1 c2 c3 : Char)
    (hys : ys.toList = [c0, c1, c2, c3])
    (h0 : c0.isDigit = true) (h1 : c1.isDigit = true) (h2 : c2.isDigit = true)
    (h3 : c3.isDigit = true) (hd : 6 ≤ digitVal c0) :
    firstDigit ys = some (digitVal c0) ∧
    maturityYearSuffix ys (digitVal c0) = some (String.mk [c0]) ∧
    (strikeStrOf ys (digitVal c0)).bind parseIntDigits
      = some (100 * digitVal c1 + 10 * digitVal c2 + digitVal c3) := by
  obtain ⟨data⟩ := ys
  simp only [String.toList] at hys
  subst hys
  have hnlt : ¬ ((String.mk [c0, c1, c2, c3]).length = 4 ∧ digitVal c0 < 6) := by
    rintro ⟨-, h⟩; omega
  refine ⟨?_, ?_, ?_⟩
  · simp [firstDigit, h0]
  · rw [maturityYearSuffix, if_neg hnlt, if_pos ⟨rfl, hd⟩]
    rfl
  · rw [strikeStrOf, if_neg hnlt, if_pos ⟨rfl, hd⟩]
    simp only [Option.some_bind]
    have : pySliceFrom (String.mk [c0, c1, c2, c3]) 1 = String.mk [c1, c2, c3] := rfl
    rw [this, parseIntDigits]
    simp [h1, h2, h3, digitsVal]
    omega

/-- C2 witness: suffix `"6125"` decodes to year suffix `"6"` and strike 125. -/
theorem c2_witness :
    firstDigit "6125" = some 6 ∧
    maturityYearSuffix "6125" 6 = some "6" ∧
    (strikeStrOf "6125" 6).bind parseIntDigits = some 125 :=
  c2_legacy_first_digit_ge6 "6125" '6' '1' '2' '5' rfl rfl rfl rfl rfl (by decide)

/-- C3: a modern (length-6) numeric suffix decodes to maturity-year suffix
equal to its first two digits verbatim and to the integer value of the
remaining four digits as strike. -/
theorem c3_modern_suffix (ys : String) (c0 c1 c2 c3 c4 c5 : Char)
    (hys : ys.toList = [c0, c1, c2, c3, c4, c5])
    (h0 : c0.isDigit = true) (h1 : c1.isDigit = true) (h2 : c2.isDigit = true)
    (h3 : c3.isDigit = true) (h4 : c4.isDigit = true) (h5 : c5.isDigit = true) :
    firstDigit ys = some (digitVal c0) ∧
    maturityYearSuffix ys (digitVal c0) = some (String.mk [c0, c1]) ∧
    (strikeStrOf ys (digitVal c0)).bind parseIntDigits
      = some (1000 * digitVal c2 + 100 * digitVal c3 + 10 * digitVal c4 + digitVal c5) := by
  obtain ⟨data⟩ := ys
  simp only [String.toList] at hys
  subst hys
  have hne4 : ¬ (String.mk [c0, c1, c2, c3, c4, c5]).length = 4 := by
    intro h; simp [String.length] at h
  refine ⟨?_, ?_, ?_⟩
  · simp [firstDigit, h0]
  · rw [maturityYearSuffix, if_neg (fun h => hne4 h.1), if_neg (fun h => hne4 h.1),
      if_pos (show (String.mk [c0, c1, c2, c3, c4, c5]).length = 6 from rfl)]
    rfl
  · rw [strikeStrOf, if_neg (fun h => hne4 h.1), if_neg (fun h => hne4 h.1),
      if_pos (show (String.mk [c0, c1, c2, c3, c4, c5]).length = 6 from rfl)]
    simp only [Option.some_bind]
    have : pySliceFrom (String.mk [c0, c1, c2, c3, c4, c5]) 2 = String.mk [c2, c3, c4, c5] :=
      rfl
    rw [this, parseIntDigits]
    simp [h2, h3, h4, h5, digitsVal]
    omega

/-- C3 witness: suffix `"181250"` decodes to year suffix `"18"` and strike
1250. -/
theorem c3_witness :
    firstDigit "181250" = some 1 ∧
    maturityYearSuffix "181250" 1 = some "18" ∧
    (strikeStrOf "181250" 1).bind parseIntDigits = some 1250 :=
  c3_modern_suffix "181250" '1' '8' '1' '2' '5' '0' rfl rfl rfl rfl rfl rfl rfl

/-- A key with two or more reference entries falsifies the many-to-one key
check. -/
theorem keysUnique_false_of_dup (codes : List (Char × CodeEntry)) (ch : Char)
    (h : 2 ≤ (codes.filter fun p => p.1 == ch).length) :
    keysUnique codes = false := by
  induction codes with
  | nil => simp at h
  | cons p rest ih =>
    obtain ⟨c, e⟩ := p
    by_cases hp : c == ch
    · have hrest : 0 < (rest.filter fun q => q.1 == ch).length := by
        simp only [List.filter_cons, hp] at h
        simp at h
        omega
      obtain ⟨q, hq⟩ := List.exists_mem_of_length_pos hrest
      have hq' := List.mem_filter.mp hq
      have hc : c = ch := by simpa using hp
      have hany : rest.any (fun x => x.1 == c) = true := by
        refine List.any_eq_true.mpr ⟨q, hq'.1, ?_⟩
        have : q.1 = ch := by simpa using hq'.2
        simp [this, hc]
      simp [keysUnique, hany]
    · have h2 : 2 ≤ (rest.filter fun q => q.1 == ch).length := by
        simpa [List.filter_cons, hp] using h
      simp [keysUnique, ih h2]

/-- C8: if any record's series code matches two or more reference-table
entries, the whole run aborts with the merge-validation error. -/
theorem c8_ambiguous_join_aborts (currentYear : Nat) (codes : List (Char × CodeEntry))
    (records : List RawGreeksRecord) (r : RawGreeksRecord) (ch : Char)
    (hmem : r ∈ records) (hcode : seriesCodeOf r.ticker = some ch)
    (hdup : 2 ≤ (codes.filter fun p => p.1 == ch).length) :
    preprocess_greeks currentYear codes records
      = Except.error PipelineError.mergeNotManyToOne := by
  rw [preprocess_greeks, if_pos (keysUnique_false_of_dup codes ch hdup)]

/-- C8 witness: with a duplicated `'F'` entry, a batch whose record uses code
`'F'` aborts with the merge error. -/
theorem c8_witness :
    preprocess_greeks 2026 [('F', ⟨"3", "call"⟩), ('F', ⟨"3", "put"⟩)]
      [mkRec "OW20F4125"] = Except.error PipelineError.mergeNotManyToOne :=
  c8_ambiguous_join_aborts 2026 _ _ (mkRec "OW20F4125") 'F'
    (List.mem_singleton.mpr rfl) rfl (by decide)

/-- Unpack a successful run: every guard was passed and the output is the
record-wise assembly. -/
theorem preprocess_greeks_ok (currentYear : Nat) (codes : List (Char × CodeEntry))
    (records : List RawGreeksRecord) (outs : List NormalizedGreeksRecord)
    (h : preprocess_greeks currentYear codes records = Except.ok outs) :
    keysUnique codes = true ∧
    (∀ r ∈ records, (firstDigit (yearStrikeOf r.ticker)).isNone = false) ∧
    (∀ r ∈ records, maturityParseFails currentYear codes r = false) ∧
    (∀ r ∈ records, (strikeOf r).isNone = false) ∧
    outs = records.filterMap (normalizeRecord currentYear codes) := by
  rw [preprocess_greeks] at h
  split at h
  · exact Except.noConfusion h
  · next hkeys =>
    split at h
    · exact Except.noConfusion h
    · next hdigit =>
      split at h
      · exact Except.noConfusion h
      · next hmat =>
        split at h
        · exact Except.noConfusion h
        · next hstrike =>
          refine ⟨by simpa using hkeys, ?_, ?_, ?_, (Except.ok.injEq _ _).mp h.symm⟩
          · intro r hr
            have hx : ¬ firstDigit (yearStrikeOf r.ticker) = none :=
              (by simpa using hdigit :
                ∀ x ∈ records, ¬ firstDigit (yearStrikeOf x.ticker) = none) r hr
            cases hc : firstDigit (yearStrikeOf r.ticker) with
            | none => exact absurd hc hx
            | some _ => rfl
          · intro r hr
            have := List.any_eq_false.mp (by simpa using hmat) r hr
            simpa using this
          · intro r hr
            have hx : ¬ strikeOf r = none :=
              (by simpa using hstrike : ∀ x ∈ records, ¬ strikeOf x = none) r hr
            cases hc : strikeOf r with
            | none => exact absurd hc hx
            | some _ => rfl

/-- C6 counterexample: a batch holding a well-formed record (suffix `"4125"`)
and a record with the length-5 suffix `"71200"` does not drop just the bad
record — the whole run aborts when the strike column is cast to int, so the
good record is not processed either, and no per-record `MalformedTickerError`
exists. -/
theorem c6_counterexample :
    preprocess_greeks 2026 sampleCodes [mkRec "OW20F4125", mkRec "OW20F71200"]
      = Except.error PipelineError.strikeCast := rfl

/-- C6 amended: a record whose numeric suffix has length other than 4 or 6
leaves its strike entry NaN, and (when the earlier merge, year-digit and
maturity-parse stages pass) the final `astype({"strike": int})` aborts the
whole batch. -/
theorem c6_amended_batch_abort (currentYear : Nat) (codes : List (Char × CodeEntry))
    (records : List RawGreeksRecord) (r : RawGreeksRecord)
    (hmem : r ∈ records)
    (hkeys : keysUnique codes = true)
    (hdigits : ∀ q ∈ records, (firstDigit (yearStrikeOf q.ticker)).isNone = false)
    (hmat : ∀ q ∈ records, maturityParseFails currentYear codes q = false)
    (hlen4 : (yearStrikeOf r.ticker).length ≠ 4)
    (hlen6 : (yearStrikeOf r.ticker).length ≠ 6) :
    preprocess_greeks currentYear codes records = Except.error PipelineError.strikeCast := by
  have hstrike : strikeOf r = none := by
    rw [strikeOf]
    cases hfd : firstDigit (yearStrikeOf r.ticker) with
    | none => rfl
    | some y =>
      show (strikeStrOf (yearStrikeOf r.ticker) y).bind parseIntDigits = none
      rw [strikeStrOf, if_neg (fun hh => hlen4 hh.1), if_neg (fun hh => hlen4 hh.1),
        if_neg hlen6]
      rfl
  rw [preprocess_greeks, if_neg (by simp [hkeys]),
    if_neg (by
      simp only [List.any_eq_true, not_exists, not_and]
      intro q hq
      simp [hdigits q hq]),
    if_neg (by
      simp only [List.any_eq_true, not_exists, not_and]
      intro q hq
      simp [hmat q hq]),
    if_pos (List.any_eq_true.mpr ⟨r, hmem, by simp [hstrike]⟩)]

/-- C6 amended witness: a single length-5 suffix record aborts its batch with
the strike-cast error. -/
theorem c6_witness :
    preprocess_greeks 2026 sampleCodes [mkRec "OW20F71200"]
      = Except.error PipelineError.strikeCast :=
  c6_amended_batch_abort 2026 sampleCodes _ (mkRec "OW20F71200")
    (List.mem_singleton.mpr rfl) rfl
    (by intro q hq; rw [List.mem_singleton] at hq; subst hq; rfl)
    (by intro q hq; rw [List.mem_singleton] at hq; subst hq; rfl)
    (by decide) (by decide)

/-- C7 counterexample: a record whose series code `'Z'` has no reference
entry is not dropped: the run succeeds and the record appears in the output
with null option type and NaT maturity (no `UnknownSeriesCodeError` exists
anywhere in the pipeline). -/
theorem c7_counterexample :
    (preprocess_greeks 2026 sampleCodes [mkRec "OW20Z4125"]).toOption.map
      (List.map fun o => (o.ticker, o.type, o.maturity, o.strike))
      = some [("OW20Z4125", none, none, 125)] := by decide

/-- C7 amended: under `how="left"` a record with no matching reference entry
is kept: any successful run's output contains a row for it whose `type` is
NaN and whose maturity is NaT, rather than the record being dropped or the
fields defaulted. -/
theorem c7_amended_left_join_keeps (currentYear : Nat) (codes : List (Char × CodeEntry))
    (records : List RawGreeksRecord) (outs : List NormalizedGreeksRecord)
    (r : RawGreeksRecord)
    (out : NormalizedGreeksRecord)
    (hok : preprocess_greeks currentYear codes records = Except.ok outs)
    (hmem : r ∈ records)
    (hnone : lookupEntry codes r.ticker = none)
    (hnormOut : normalizeRecord currentYear codes r = some out) :
    out ∈ outs ∧ out.ticker = r.ticker ∧ out.type = none ∧ out.maturity = none := by
  obtain ⟨-, -, -, -, houts⟩ :=
    preprocess_greeks_ok currentYear codes records outs hok
  have hms : maturityStringOf codes r = none := by
    rw [maturityStringOf]
    split
    · rfl
    · split
      · rename_i hysuf hmm
        rw [hnone] at hmm
        exact absurd hmm (by simp)
      · rfl
  have hmemOut : out ∈ outs := by
    subst houts
    exact List.mem_filterMap.mpr ⟨r, hmem, hnormOut⟩
  have hcopy := hnormOut
  rw [normalizeRecord] at hcopy
  obtain ⟨k, hk, rfl⟩ := Option.map_eq_some'.mp hcopy
  refine ⟨hmemOut, rfl, ?_, ?_⟩
  · show (lookupEntry codes r.ticker).map CodeEntry.type = none
    rw [hnone]
    rfl
  · show maturityOf currentYear codes r = none
    rw [maturityOf, hms]
    rfl

/-- The output row of the unknown-code record, for the C7 witness. -/
def c7Out : NormalizedGreeksRecord :=
  { date := 0, ticker := "OW20Z4125", implied_volatility := 0, volatility := 0
    rfr_rate := 0, div_rate := 0, delta := 0, gamma := 0, theta := 0, vega := 0
    rho := 0, underlying := "W20", code := some 'Z', type := none
    strike := 125, maturity := none }

/-- C7 amended witness: the `'Z'`-coded record survives a concrete run with
null type and NaT maturity. -/
theorem c7_witness :
    c7Out ∈ (preprocess_greeks 2026 sampleCodes [mkRec "OW20Z4125"]).toOption.getD [] ∧
    c7Out.ticker = (mkRec "OW20Z4125").ticker ∧ c7Out.type = none ∧ c7Out.maturity = none :=
  c7_amended_left_join_keeps 2026 sampleCodes [mkRec "OW20Z4125"]
    ((preprocess_greeks 2026 sampleCodes [mkRec "OW20Z4125"]).toOption.getD [])
    (mkRec "OW20Z4125") c7Out rfl (List.mem_singleton.mpr rfl) rfl rfl

/-- Zeller's day-of-week is linear in the day, mod 7. -/
theorem weekday_add (y m a k : Nat) : weekday y m (a + k) = (weekday y m a + k) % 7 := by
  rw [weekday, weekday]
  split <;> omega

/-- The day-of-week value is a residue mod 7. -/
theorem weekday_lt (y m d : Nat) : weekday y m d < 7 := by
  rw [weekday]
  split <;> omega

/-- Seed fact: landing day of the week-2 Friday anchor is a Friday. -/
theorem thirdFriday_weekday_aux : ∀ w < 7, (w + ((4 + 7 - w) % 7 + 7 * 2)) % 7 = 4 := by
  decide

/-- Seed fact: exactly two earlier days of the month fall on a Friday. -/
theorem thirdFriday_count_aux :
    ∀ w < 7, (List.range' 1 ((4 + 7 - w) % 7 + 7 * 2)).countP
      (fun d => (w + (d - 1)) % 7 == 4) = 2 := by
  decide

/-- Applying `WeekOfMonth(week=2, weekday=4)` to the first of a month stays in
that month, at the anchor day. -/
theorem addWeekOfMonth_day1 (y m : Nat) :
    addWeekOfMonth 2 4 ⟨y, m, 1⟩ = ⟨y, m, weekOfMonthAnchor 2 4 y m⟩ := by
  rw [addWeekOfMonth]
  have h1 : (1 : Nat) < weekOfMonthAnchor 2 4 y m := by
    rw [weekOfMonthAnchor]; omega
  rw [if_pos h1]

/-- The anchor of `WeekOfMonth(week=2, weekday=4)` is a Friday with exactly
two Fridays before it in the same month. -/
theorem thirdFriday_spec (y m : Nat) :
    weekday y m (weekOfMonthAnchor 2 4 y m) = 4 ∧
    (List.range' 1 (weekOfMonthAnchor 2 4 y m - 1)).countP
      (fun d => weekday y m d == 4) = 2 := by
  set w := weekday y m 1 with hw
  have hwlt : w < 7 := weekday_lt y m 1
  have hanchor : weekOfMonthAnchor 2 4 y m = 1 + ((4 + 7 - w) % 7 + 7 * 2) := by
    rw [weekOfMonthAnchor]; omega
  constructor
  · rw [hanchor, weekday_add, ← hw]
    exact thirdFriday_weekday_aux w hwlt
  · rw [hanchor]
    have hlen : 1 + ((4 + 7 - w) % 7 + 7 * 2) - 1 = (4 + 7 - w) % 7 + 7 * 2 := by omega
    rw [hlen]
    have hcong : (List.range' 1 ((4 + 7 - w) % 7 + 7 * 2)).countP
        (fun d => weekday y m d == 4)
        = (List.range' 1 ((4 + 7 - w) % 7 + 7 * 2)).countP
          (fun d => (w + (d - 1)) % 7 == 4) := by
      refine List.countP_congr ?_
      intro d hd
      obtain ⟨i, hi, rfl⟩ := List.mem_range'.mp hd
      have h1 : 1 + 1 * i = 1 + i := by omega
      rw [h1, weekday_add, ← hw]
      have h2 : 1 + i - 1 = i := by omega
      rw [h2]
    rw [hcong]
    exact thirdFriday_count_aux w hwlt

/-- C4: every maturity in a successful run's output is a Friday preceded by
exactly two Fridays in its month (the third Friday, counting a Friday 1st as
occurrence 1); in particular month `"3"` with year suffix `"20"` gives
2020-03-20. -/
theorem c4_maturity_is_third_friday :
    (∀ currentYear codes records outs out dt,
      preprocess_greeks currentYear codes records = Except.ok outs →
      out ∈ outs → out.maturity = some dt →
      weekday dt.year dt.month dt.day = 4 ∧
      (List.range' 1 (dt.day - 1)).countP (fun d => weekday dt.year dt.month d == 4) = 2) ∧
    maturityOf 2026 sampleCodes (mkRec "OW20C201500") = some ⟨2020, 3, 20⟩ := by
  constructor
  · intro cy codes records outs out dt hok hmem hmat
    obtain ⟨-, -, -, -, houts⟩ := preprocess_greeks_ok cy codes records outs hok
    subst houts
    obtain ⟨r, hr, hnorm⟩ := List.mem_filterMap.mp hmem
    rw [normalizeRecord] at hnorm
    obtain ⟨k, hk, rfl⟩ := Option.map_eq_some'.mp hnorm
    change maturityOf cy codes r = some dt at hmat
    rw [maturityOf] at hmat
    obtain ⟨p, hp, hmap⟩ := Option.bind_eq_some.mp hmat
    obtain ⟨d0, hd0, rfl⟩ := Option.map_eq_some'.mp hmap
    rw [parseMaturityStr] at hd0
    split at hd0
    · split at hd0
      · obtain rfl := (Option.some.injEq _ _).mp hd0
        rw [addWeekOfMonth_day1]
        exact thirdFriday_spec _ _
      · exact Option.noConfusion hd0
    · exact Option.noConfusion hd0
  · decide

/-- C4 witness: a concrete run whose single output record matures on
2020-03-20, a Friday with exactly two earlier Fridays in March 2020. -/
theorem c4_witness :
    weekday 2020 3 20 = 4 ∧
    (List.range' 1 19).countP (fun d => weekday 2020 3 d == 4) = 2 :=
  c4_maturity_is_third_friday.1 2026 sampleCodes [mkRec "OW20C201500"] _
    { date := 0, ticker := "OW20C201500", implied_volatility := 0, volatility := 0
      rfr_rate := 0, div_rate := 0, delta := 0, gamma := 0, theta := 0, vega := 0
      rho := 0, underlying := "W20", code := some 'C', type := some "call"
      strike := 1500, maturity := some ⟨2020, 3, 20⟩ }
    ⟨2020, 3, 20⟩ rfl (List.mem_singleton.mpr rfl) rfl

/-- A digit character's value is below 10. -/
theorem digitVal_lt_10 (c : Char) (h : c.isDigit = true) : digitVal c < 10 := by
  rw [Char.isDigit] at h
  obtain ⟨-, h2⟩ := Bool.and_eq_true_iff.mp h
  have h9 : c ≤ '9' := of_decide_eq_true h2
  rw [Char.le_def, UInt32.le_def, BitVec.le_def] at h9
  rw [digitVal, Char.toNat]
  have h57 : ('9' : Char).val.toBitVec.toNat = 57 := rfl
  rw [h57] at h9
  have hbridge : c.val.toNat = c.val.toBitVec.toNat := rfl
  omega

/-- The value of an at-most-2-character digit string is below 100. -/
theorem digitsVal_le2_lt (l : List Char) (hlen : l.length ≤ 2)
    (hall : ∀ c ∈ l, c.isDigit = true) : digitsVal (l.map digitVal) < 100 := by
  rcases l with - | ⟨a, - | ⟨b, - | ⟨c, t⟩⟩⟩
  · simp [digitsVal]
  · have := digitVal_lt_10 a (hall a (by simp))
    simp [digitsVal]
    omega
  · have ha := digitVal_lt_10 a (hall a (by simp))
    have hb := digitVal_lt_10 b (hall b (by simp))
    simp [digitsVal]
    omega
  · simp at hlen

/-- A parsed at-most-2-character string is below 100. -/
theorem parseIntDigits_le2_lt_100 (s : String) (v : Nat) (hlen : s.toList.length ≤ 2)
    (h : parseIntDigits s = some v) : v < 100 := by
  rw [parseIntDigits] at h
  split at h
  · exact Option.noConfusion h
  · split at h
    · next hall =>
      obtain rfl := ((Option.some.injEq _ _).mp h).symm
      exact digitsVal_le2_lt s.toList hlen (List.all_eq_true.mp hall)
    · exact Option.noConfusion h

/-- Every maturity-year suffix the decoder produces has at most 2 characters. -/
theorem maturityYearSuffix_length (ys : String) (y : Nat) (sufStr : String)
    (h : maturityYearSuffix ys y = some sufStr) : sufStr.toList.length ≤ 2 := by
  rw [maturityYearSuffix] at h
  split at h
  · obtain rfl := ((Option.some.injEq _ _).mp h).symm
    show (("1" ++ pySlice ys 0 1).data).length ≤ 2
    rw [String.data_append]
    simp [pySlice, List.length_take]
  · split at h
    · obtain rfl := ((Option.some.injEq _ _).mp h).symm
      simp [pySlice, List.length_take]
    · split at h
      · obtain rfl := ((Option.some.injEq _ _).mp h).symm
        simp [pySlice, List.length_take]
      · exact Option.noConfusion h

/-- C5 counterexample: with the program running in 2026, the modern suffix
`"991000"` decodes to year suffix `"99"`, but the reconstructed maturity year
is 1999 (dateutil's ±50-year window), not 2000 + 99. -/
theorem c5_counterexample :
    ((preprocess_greeks 2026 sampleCodes [mkRec "OW20F991000"]).toOption.bind
      List.head?).map (fun o => o.maturity.map Date.year) = some (some 1999) ∧
    parseIntDigits "99" = some 99 ∧ (1999 : Nat) ≠ 2000 + 99 := by decide

/-- C5 amended: the reconstructed four-digit maturity year equals 2000 plus
the integer value of the decoded maturity-year suffix, provided the run's
current year is in the 2000s century and 2000 + suffix lies within dateutil's
±50-year two-digit-year window around it (always true for the year suffixes
real tickers produce, 06-24, on any run year 2000-2055). -/
theorem c5_amended_year_2000_plus (currentYear : Nat) (codes : List (Char × CodeEntry))
    (r : RawGreeksRecord) (ysuf mm : String) (s : Nat) (dt : Date)
    (hms : maturityStringOf codes r = some (ysuf, mm))
    (hparse : parseIntDigits ysuf = some s)
    (hcentury : currentYear / 100 = 20)
    (hlo : 2000 + s < currentYear + 50)
    (hhi : currentYear < 2000 + s + 50)
    (hmat : maturityOf currentYear codes r = some dt) :
    dt.year = 2000 + s := by
  have hs100 : s < 100 := by
    rw [maturityStringOf] at hms
    split at hms
    · exact Option.noConfusion hms
    · split at hms
      · rename_i ysuf' mm' hysuf hmmEq
        have hpair := (Option.some.injEq _ _).mp hms
        have hy : ysuf' = ysuf := congrArg Prod.fst hpair
        subst hy
        exact parseIntDigits_le2_lt_100 _ s (maturityYearSuffix_length _ _ _ hysuf) hparse
      · exact Option.noConfusion hms
  rw [maturityOf, hms] at hmat
  rw [Option.some_bind] at hmat
  obtain ⟨d0, hd0, rfl⟩ := Option.map_eq_some'.mp hmat
  rw [parseMaturityStr, hparse] at hd0
  split at hd0
  · rename_i s' m' hseq hmeq
    obtain rfl : s = s' := (Option.some.injEq _ _).mp hseq
    split at hd0
    · obtain rfl := (Option.some.injEq _ _).mp hd0
      rw [addWeekOfMonth_day1]
      show convertyear currentYear s = 2000 + s
      rw [convertyear, if_pos hs100]
      split_ifs <;> omega
    · exact Option.noConfusion hd0
  · exact Option.noConfusion hd0

/-- C5 amended witness: suffix `"18"` under run year 2026 reconstructs
maturity year 2018 = 2000 + 18. -/
theorem c5_witness : (Date.mk 2018 3 16).year = 2000 + 18 :=
  c5_amended_year_2000_plus 2026 sampleCodes (mkRec "OW20F181250") "18" "3" 18
    ⟨2018, 3, 16⟩ rfl rfl rfl (by decide) (by decide) rfl

/-- C10 counterexample: the output schema has no `option_type` column — the
option-type column that survives to the output is literally named `type` (and
the helper column `code` survives as well). -/
theorem c10_counterexample :
    "option_type" ∉ outputColumns ∧ "type" ∈ outputColumns ∧ "code" ∈ outputColumns := by
  decide

/-- C10 amended: the output contains fourteen of the fifteen listed columns
by their listed names, carries the option type under the column name `type`
rather than `option_type`, and every raw input field is carried through to
the output row unchanged. -/
theorem c10_amended_schema_and_carry :
    (∀ col ∈ ["date", "ticker", "implied_volatility", "volatility", "rfr_rate",
        "div_rate", "delta", "gamma", "theta", "vega", "rho", "underlying",
        "strike", "maturity"], col ∈ outputColumns) ∧
    "type" ∈ outputColumns ∧ "option_type" ∉ outputColumns ∧
    (∀ currentYear codes r out, normalizeRecord currentYear codes r = some out →
      out.date = r.date ∧ out.ticker = r.ticker ∧
      out.implied_volatility = r.implied_volatility ∧ out.volatility = r.volatility ∧
      out.rfr_rate = r.rfr_rate ∧ out.div_rate = r.div_rate ∧ out.delta = r.delta ∧
      out.gamma = r.gamma ∧ out.theta = r.theta ∧ out.vega = r.vega ∧
      out.rho = r.rho) := by
  refine ⟨by decide, by decide, by decide, ?_⟩
  intro currentYear codes r out h
  rw [normalizeRecord] at h
  obtain ⟨k, hk, rfl⟩ := Option.map_eq_some'.mp h
  exact ⟨rfl, rfl, rfl, rfl, rfl, rfl, rfl, rfl, rfl, rfl, rfl⟩

/-- The concrete output row of a sample record, for the C10 witness. -/
def c10Out : NormalizedGreeksRecord :=
  { date := 0, ticker := "OW20F4125", implied_volatility := 0, volatility := 0
    rfr_rate := 0, div_rate := 0, delta := 0, gamma := 0, theta := 0, vega := 0
    rho := 0, underlying := "W20", code := some 'F', type := some "call"
    strike := 125, maturity := some ⟨2014, 3, 21⟩ }

/-- C10 amended witness: the raw fields of a concrete record are carried
through unchanged. -/
theorem c10_witness :
    c10Out.date = (mkRec "OW20F4125").date ∧
    c10Out.ticker = (mkRec "OW20F4125").ticker ∧
    c10Out.implied_volatility = (mkRec "OW20F4125").implied_volatility ∧
    c10Out.volatility = (mkRec "OW20F4125").volatility ∧
    c10Out.rfr_rate = (mkRec "OW20F4125").rfr_rate ∧
    c10Out.div_rate = (mkRec "OW20F4125").div_rate ∧
    c10Out.delta = (mkRec "OW20F4125").delta ∧
    c10Out.gamma = (mkRec "OW20F4125").gamma ∧
    c10Out.theta = (mkRec "OW20F4125").theta ∧
    c10Out.vega = (mkRec "OW20F4125").vega ∧
    c10Out.rho = (mkRec "OW20F4125").rho :=
  c10_amended_schema_and_carry.2.2.2 2026 sampleCodes (mkRec "OW20F4125") c10Out rfl

/-- Fixed-width big-endian digit list of `n` (for building synthetic
tickers). -/
def padDigits (w n : Nat) : List Nat :=
  match w with
  | 0 => []
  | w + 1 => padDigits w (n / 10) ++ [n % 10]

/-- `firstDigit` on an explicitly cons-shaped string. -/
theorem firstDigit_cons (ch : Char) (rest : List Char) :
    firstDigit (String.mk (ch :: rest)) = if ch.isDigit then some (digitVal ch) else none := by
  simp only [firstDigit, String.toList, List.getElem?_cons_zero]

/-- ASCII rendering of a digit is a digit character with that value. -/
theorem digitChar_spec :
    ∀ d < 10, (Char.ofNat (48 + d)).isDigit = true ∧ digitVal (Char.ofNat (48 + d)) = d := by
  decide

/-- Reading back the values of rendered digits is the identity. -/
theorem map_digitChar_val (l : List Nat) (h : ∀ d ∈ l, d < 10) :
    (l.map fun d => Char.ofNat (48 + d)).map digitVal = l := by
  induction l with
  | nil => rfl
  | cons a t ih =>
    simp only [List.map_cons]
    rw [ih fun d hd => h d (by simp [hd])]
    rw [(digitChar_spec a (h a (by simp))).2]

/-- Rendered digits pass the all-digits check. -/
theorem all_digitChar (l : List Nat) (h : ∀ d ∈ l, d < 10) :
    ((l.map fun d => Char.ofNat (48 + d)).all Char.isDigit) = true := by
  rw [List.all_eq_true]
  intro ch hch
  obtain ⟨d, hd, rfl⟩ := List.mem_map.mp hch
  exact (digitChar_spec d (h d hd)).1

/-- `astype(int)` inverts digit rendering. -/
theorem parseIntDigits_digitChars (l : List Nat) (hne : l ≠ []) (h : ∀ d ∈ l, d < 10) :
    parseIntDigits (String.mk (l.map fun d => Char.ofNat (48 + d))) = some (digitsVal l) := by
  rw [parseIntDigits]
  rw [show (String.mk (l.map fun d => Char.ofNat (48 + d))).toList
      = l.map fun d => Char.ofNat (48 + d) from rfl]
  rw [if_neg (by simp [List.isEmpty_iff, hne]), if_pos (all_digitChar l h)]
  rw [map_digitChar_val l h]

/-- Digits of a fixed-width rendering are digits. -/
theorem padDigits_lt (w n : Nat) : ∀ d ∈ padDigits w n, d < 10 := by
  induction w generalizing n with
  | zero => intro d hd; simp [padDigits] at hd
  | succ w ih =>
    intro d hd
    rw [padDigits] at hd
    rcases List.mem_append.mp hd with hmem | hmem
    · exact ih (n / 10) d hmem
    · rw [List.mem_singleton] at hmem
      subst hmem
      exact Nat.mod_lt _ (by omega)

/-- Last-two-digits encoding of a legacy maturity year: 2010-2015 drop the
leading "1" of the two-digit year (digits 0-5), 2006-2009 use the final year
digit directly (6-9). -/
def legacyYearDigit (year : Nat) : Nat :=
  if 2010 ≤ year then year - 2010 else year - 2000

/-- A synthetic legacy-format ticker: market prefix, 3-char underlying,
series code, year digit, 3-digit strike. -/
def mkLegacyTicker (pfx : Char) (u : String) (c : Char) (year strike : Nat) : String :=
  String.mk (pfx :: u.toList ++ c :: Char.ofNat (48 + legacyYearDigit year) ::
    ((padDigits 3 strike).map fun d => Char.ofNat (48 + d)))

/-- A synthetic modern-format ticker: market prefix, 3-char underlying,
series code, 2-digit year, 4-digit strike. -/
def mkModernTicker (pfx : Char) (u : String) (c : Char) (year strike : Nat) : String :=
  String.mk (pfx :: u.toList ++ c ::
    ((padDigits 2 (year - 2000) ++ padDigits 4 strike).map fun d => Char.ofNat (48 + d)))

/-- C9: decoding a synthetically built ticker reproduces the underlying
(positions 1-3), the series code (position 4), the maturity year (as 2000
plus the decoded suffix value) and the strike, in both the legacy and the
modern format. -/
theorem c9_roundtrip (pfx : Char) (u : String) (c : Char) (hu : u.toList.length = 3) :
    (∀ year strike, 2006 ≤ year → year ≤ 2015 → strike < 1000 →
      underlyingOf (mkLegacyTicker pfx u c year strike) = u ∧
      seriesCodeOf (mkLegacyTicker pfx u c year strike) = some c ∧
      firstDigit (yearStrikeOf (mkLegacyTicker pfx u c year strike))
        = some (legacyYearDigit year) ∧
      (maturityYearSuffix (yearStrikeOf (mkLegacyTicker pfx u c year strike))
          (legacyYearDigit year)).bind parseIntDigits = some (year - 2000) ∧
      2000 + (year - 2000) = year ∧
      (strikeStrOf (yearStrikeOf (mkLegacyTicker pfx u c year strike))
          (legacyYearDigit year)).bind parseIntDigits = some strike) ∧
    (∀ year strike, 2000 ≤ year → year ≤ 2099 → strike < 10000 →
      underlyingOf (mkModernTicker pfx u c year strike) = u ∧
      seriesCodeOf (mkModernTicker pfx u c year strike) = some c ∧
      firstDigit (yearStrikeOf (mkModernTicker pfx u c year strike))
        = some ((year - 2000) / 10 % 10) ∧
      (maturityYearSuffix (yearStrikeOf (mkModernTicker pfx u c year strike))
          ((year - 2000) / 10 % 10)).bind parseIntDigits = some (year - 2000) ∧
      2000 + (year - 2000) = year ∧
      (strikeStrOf (yearStrikeOf (mkModernTicker pfx u c year strike))
          ((year - 2000) / 10 % 10)).bind parseIntDigits = some strike) := by
  obtain ⟨udata⟩ := u
  obtain ⟨u0, u1, u2, rfl⟩ := List.length_eq_three.mp (by simpa using hu)
  constructor
  · intro year strike hy1 hy2 hs
    have hdlt : legacyYearDigit year < 10 := by
      rw [legacyYearDigit]; split <;> omega
    have hspec := digitChar_spec (legacyYearDigit year) hdlt
    have hys : yearStrikeOf (mkLegacyTicker pfx ⟨[u0, u1, u2]⟩ c year strike)
        = String.mk (Char.ofNat (48 + legacyYearDigit year) ::
          (padDigits 3 strike).map fun d => Char.ofNat (48 + d)) := rfl
    have hlen4 : (String.mk (Char.ofNat (48 + legacyYearDigit year) ::
        (padDigits 3 strike).map fun d => Char.ofNat (48 + d))).length = 4 := by
      show (Char.ofNat (48 + legacyYearDigit year) ::
        (padDigits 3 strike).map fun d => Char.ofNat (48 + d)).length = 4
      simp [padDigits]
    have hstrike3 : ∀ d ∈ padDigits 3 strike, d < 10 := padDigits_lt 3 strike
    refine ⟨rfl, rfl, ?_, ?_, by omega, ?_⟩
    · rw [hys, firstDigit_cons, if_pos hspec.1, hspec.2]
    · by_cases hcase : 2010 ≤ year
      · have hd6 : legacyYearDigit year < 6 := by
          rw [legacyYearDigit, if_pos hcase]; omega
        rw [hys, maturityYearSuffix, if_pos ⟨hlen4, hd6⟩, Option.some_bind]
        rw [show ("1" ++ pySlice (String.mk (Char.ofNat (48 + legacyYearDigit year) ::
            (padDigits 3 strike).map fun d => Char.ofNat (48 + d))) 0 1)
          = String.mk ([1, legacyYearDigit year].map fun d => Char.ofNat (48 + d)) from rfl]
        rw [parseIntDigits_digitChars [1, legacyYearDigit year] (by simp)
          (by intro d hd; simp at hd; rcases hd with h | h <;> omega)]
        simp only [Option.some.injEq, digitsVal, List.foldl]
        rw [legacyYearDigit, if_pos hcase]
        omega
      · have hd6 : ¬ ((String.mk (Char.ofNat (48 + legacyYearDigit year) ::
            (padDigits 3 strike).map fun d => Char.ofNat (48 + d))).length = 4
            ∧ legacyYearDigit year < 6) := by
          rintro ⟨-, hlt⟩
          rw [legacyYearDigit, if_neg hcase] at hlt
          omega
        have hge : 6 ≤ legacyYearDigit year := by
          rw [legacyYearDigit, if_neg hcase]; omega
        rw [hys, maturityYearSuffix, if_neg hd6, if_pos ⟨hlen4, hge⟩, Option.some_bind]
        rw [show pySlice (String.mk (Char.ofNat (48 + legacyYearDigit year) ::
            (padDigits 3 strike).map fun d => Char.ofNat (48 + d))) 0 1
          = String.mk ([legacyYearDigit year].map fun d => Char.ofNat (48 + d)) from rfl]
        rw [parseIntDigits_digitChars [legacyYearDigit year] (by simp)
          (by intro d hd; simp at hd; omega)]
        simp only [Option.some.injEq, digitsVal, List.foldl]
        rw [legacyYearDigit, if_neg hcase]
        omega
    · have hval : digitsVal (padDigits 3 strike) = strike := by
        simp [padDigits, digitsVal]
        omega
      by_cases hd6 : legacyYearDigit year < 6
      · rw [hys, strikeStrOf, if_pos ⟨hlen4, hd6⟩, Option.some_bind]
        rw [show pySliceFrom (String.mk (Char.ofNat (48 + legacyYearDigit year) ::
            (padDigits 3 strike).map fun d => Char.ofNat (48 + d))) 1
          = String.mk ((padDigits 3 strike).map fun d => Char.ofNat (48 + d)) from rfl]
        rw [parseIntDigits_digitChars (padDigits 3 strike) (by simp [padDigits]) hstrike3,
          hval]
      · rw [hys, strikeStrOf, if_neg (fun hh => hd6 hh.2), if_pos ⟨hlen4, by omega⟩,
          Option.some_bind]
        rw [show pySliceFrom (String.mk (Char.ofNat (48 + legacyYearDigit year) ::
            (padDigits 3 strike).map fun d => Char.ofNat (48 + d))) 1
          = String.mk ((padDigits 3 strike).map fun d => Char.ofNat (48 + d)) from rfl]
        rw [parseIntDigits_digitChars (padDigits 3 strike) (by simp [padDigits]) hstrike3,
          hval]
  · intro year strike hy1 hy2 hs
    have hys : yearStrikeOf (mkModernTicker pfx ⟨[u0, u1, u2]⟩ c year strike)
        = String.mk ((padDigits 2 (year - 2000) ++ padDigits 4 strike).map
          fun d => Char.ofNat (48 + d)) := rfl
    have hlen6 : (String.mk ((padDigits 2 (year - 2000) ++ padDigits 4 strike).map
        fun d => Char.ofNat (48 + d))).length = 6 := by
      show ((padDigits 2 (year - 2000) ++ padDigits 4 strike).map
        fun d => Char.ofNat (48 + d)).length = 6
      simp [padDigits]
    have hne4 : ¬ ((String.mk ((padDigits 2 (year - 2000) ++ padDigits 4 strike).map
        fun d => Char.ofNat (48 + d))).length = 4) := by
      rw [hlen6]; omega
    have hspec0 := digitChar_spec ((year - 2000) / 10 % 10) (by omega)
    have hstrike4 : ∀ d ∈ padDigits 4 strike, d < 10 := padDigits_lt 4 strike
    refine ⟨rfl, rfl, ?_, ?_, by omega, ?_⟩
    · rw [hys]
      rw [show String.mk ((padDigits 2 (year - 2000) ++ padDigits 4 strike).map
          fun d => Char.ofNat (48 + d))
        = String.mk (Char.ofNat (48 + (year - 2000) / 10 % 10) ::
          (((year - 2000) % 10 :: padDigits 4 strike).map fun d => Char.ofNat (48 + d)))
        from rfl]
      rw [firstDigit_cons, if_pos hspec0.1, hspec0.2]
    · rw [hys, maturityYearSuffix, if_neg (fun hh => hne4 hh.1), if_neg (fun hh => hne4 hh.1),
        if_pos hlen6, Option.some_bind]
      rw [show pySlice (String.mk ((padDigits 2 (year - 2000) ++ padDigits 4 strike).map
          fun d => Char.ofNat (48 + d))) 0 2
        = String.mk ([(year - 2000) / 10 % 10, (year - 2000) % 10].map
          fun d => Char.ofNat (48 + d)) from rfl]
      rw [parseIntDigits_digitChars [(year - 2000) / 10 % 10, (year - 2000) % 10] (by simp)
        (by intro d hd; simp at hd; rcases hd with h | h <;> omega)]
      simp only [Option.some.injEq]
      simp [digitsVal]
      omega
    · rw [hys, strikeStrOf, if_neg (fun hh => hne4 hh.1), if_neg (fun hh => hne4 hh.1),
        if_pos hlen6, Option.some_bind]
      rw [show pySliceFrom (String.mk ((padDigits 2 (year - 2000) ++ padDigits 4 strike).map
          fun d => Char.ofNat (48 + d))) 2
        = String.mk ((padDigits 4 strike).map fun d => Char.ofNat (48 + d)) from rfl]
      rw [parseIntDigits_digitChars (padDigits 4 strike) (by simp [padDigits]) hstrike4]
      simp only [Option.some.injEq]
      simp [padDigits, digitsVal]
      omega

/-- C9 witness: the legacy ticker built from underlying `"W20"`, code `'F'`,
year 2014 and strike 125 decodes back to exactly those fields. -/
theorem c9_witness :
    underlyingOf (mkLegacyTicker 'O' "W20" 'F' 2014 125) = "W20" ∧
    seriesCodeOf (mkLegacyTicker 'O' "W20" 'F' 2014 125) = some 'F' ∧
    firstDigit (yearStrikeOf (mkLegacyTicker 'O' "W20" 'F' 2014 125))
      = some (legacyYearDigit 2014) ∧
    (maturityYearSuffix (yearStrikeOf (mkLegacyTicker 'O' "W20" 'F' 2014 125))
        (legacyYearDigit 2014)).bind parseIntDigits = some (2014 - 2000) ∧
    2000 + (2014 - 2000) = 2014 ∧
    (strikeStrOf (yearStrikeOf (mkLegacyTicker 'O' "W20" 'F' 2014 125))
        (legacyYearDigit 2014)).bind parseIntDigits = some 125 :=
  (c9_roundtrip 'O' "W20" 'F' rfl).1 2014 125 (by decide) (by decide) (by decide)

